import Mathlib

/-!
# Fakturaplus — statistical aggregation and item-normalization pipeline

A shallow embedding of the aggregation / merge / price-alert core of
`backend/server.py`:

* item-name normalization (`item.name.strip().lower()`),
* the per-item price-history write and price-alert rule inside
  `create_invoice` (server.py lines 1443–1527),
* the price-alert settings endpoints (`update_price_alert_settings`),
* the unmerged statistics endpoint `get_item_statistics`
  (server.py lines 3150–3269),
* merge-mapping upsert / delete and the merged statistics endpoint
  `get_merged_item_statistics` (server.py lines 3415–3623).

Strings are embedded as lists of Unicode code points (`List Nat`);
Python's `str.lower` / `str.upper` are modelled on the ASCII letter
range and the basic Cyrillic letter range (the alphabets the
application's data uses); Python's default `str.strip` whitespace set
is modelled by the standard ASCII whitespace code points.  Python
floats are modelled as exact rationals; the explicit `round(x, n)`
calls of the source are modelled by round-half-to-even on `ℚ`
(Python's rounding mode).  MongoDB collections are modelled as Lean
lists of records, `dict`s as insertion-ordered association lists with
last-write-wins update, matching CPython's dict semantics.
-/

/-! ## Code points: Python `lower`, `upper`, `strip` whitespace -/

/-- A code point is an ASCII whitespace character (Python's default
`str.strip` set: tab, LF, VT, FF, CR, space). -/
def pyIsSpace (c : Nat) : Bool :=
  c = 32 || (9 ≤ c && c ≤ 13)

/-- `str.lower` on one code point: ASCII `A`–`Z` and Cyrillic `А`–`Я`
(U+0410–U+042F) map to their lowercase forms, everything else is
unchanged. -/
def pyLower (c : Nat) : Nat :=
  if 65 ≤ c ∧ c ≤ 90 then c + 32
  else if 0x410 ≤ c ∧ c ≤ 0x42F then c + 0x20
  else c

/-- `str.upper` on one code point (used only by `str.title`). -/
def pyUpper (c : Nat) : Nat :=
  if 97 ≤ c ∧ c ≤ 122 then c - 32
  else if 0x430 ≤ c ∧ c ≤ 0x44F then c - 0x20
  else c

/-- Alphabetic code point (for `str.title`'s word boundaries). -/
def pyIsAlpha (c : Nat) : Bool :=
  (65 ≤ c && c ≤ 90) || (97 ≤ c && c ≤ 122) || (0x410 ≤ c && c ≤ 0x44F)

/-- An embedded string: the list of its code points. -/
abbrev Str := List Nat

/-- `s.lower()`. -/
def strLower (s : Str) : Str := s.map pyLower

/-- Leading-whitespace strip (`str.lstrip`). -/
def lstrip (s : Str) : Str := s.dropWhile pyIsSpace

/-- Trailing-whitespace strip (`str.rstrip`). -/
def rstrip (s : Str) : Str := (s.reverse.dropWhile pyIsSpace).reverse

/-- `s.strip()`: drop leading and trailing whitespace. -/
def strip (s : Str) : Str := rstrip (lstrip s)

/-- The grouping key used throughout the source:
`item.name.strip().lower()`. -/
def normalizeName (s : Str) : Str := strLower (strip s)

/-- `str.title` helper: capitalize a letter after a non-letter,
lowercase a letter after a letter. -/
def pyTitleAux : Bool → Str → Str
  | _, [] => []
  | prevAlpha, c :: rest =>
      (if pyIsAlpha c then (if prevAlpha then pyLower c else pyUpper c) else c)
        :: pyTitleAux (pyIsAlpha c) rest

/-- `s.title()` (only reachable in `get_merged_item_statistics` as a
fallback display name). -/
def pyTitle (s : Str) : Str := pyTitleAux false s

/-! ## Rational rounding (Python `round(x, n)`) -/

/-- Round a rational to the nearest integer, ties to even —
Python's rounding mode for `round`. -/
def roundHalfEven (x : ℚ) : ℤ :=
  let f : ℤ := ⌊x⌋
  let r : ℚ := x - f
  if r < 1/2 then f
  else if 1/2 < r then f + 1
  else if f % 2 = 0 then f else f + 1

/-- Python's `round(x, d)` on exact rationals. -/
def roundTo (d : Nat) (x : ℚ) : ℚ :=
  (roundHalfEven (x * 10 ^ d) : ℚ) / 10 ^ d

/-- `round(x, 2)`, the rounding used for monetary outputs. -/
def round2 (x : ℚ) : ℚ := roundTo 2 x

example : normalizeName [32, 67, 97, 32] = [99, 97] := by decide
example : round2 (1/250) = 0 := by norm_num [round2, roundTo, roundHalfEven]
example : round2 10 = 10 := by norm_num [round2, roundTo, roundHalfEven]
example : roundTo 1 (1/8) = 1/10 := by norm_num [roundTo, roundHalfEven]

/-! ## Data model

Record types mirror the Pydantic models of `backend/server.py`
(lines 188–220).  `id` / `created_at` / `unit` / `invoice_id` fields
that no claim touches are kept where they carry data the pipeline
reads, and elided where they are opaque fresh identifiers. -/

/-- `ItemPriceHistory` (server.py lines 188–199): one price-history row,
written per invoice line item.  `item_name` holds the normalized name. -/
structure ItemPriceHistory where
  company_id : Nat
  supplier : Str
  item_name : Str
  unit_price : ℚ
  quantity : ℚ
  unit : Str
  invoice_number : Str
  invoice_date : ℤ
  deriving Repr, DecidableEq

/-- `PriceAlertSettings` (server.py lines 202–207): per-tenant alert
configuration; defaults `threshold_percent = 10.0`, `enabled = True`. -/
structure PriceAlertSettings where
  company_id : Nat
  threshold_percent : ℚ := 10
  enabled : Bool := true
  deriving Repr, DecidableEq

/-- Alert status strings.  The Pydantic default is `"unread"`. -/
inductive AlertStatus where
  | unread
  | read
  | dismissed
  deriving Repr, DecidableEq

/-- `PriceAlert` (server.py lines 209–220). -/
structure PriceAlert where
  company_id : Nat
  item_name : Str
  supplier : Str
  old_price : ℚ
  new_price : ℚ
  change_percent : ℚ
  invoice_number : Str
  status : AlertStatus := .unread
  deriving Repr, DecidableEq

/-- A merge-mapping document of the `item_merge_mappings` collection
(as written by the upsert at server.py lines 3425–3437). -/
structure MergeMapping where
  company_id : Nat
  canonical_name : Str
  display_name : Str
  variants : List Str
  deriving Repr, DecidableEq

/-- The database state the aggregation / alerting core reads and
writes: the three collections involved, scoped to the records the
pipeline touches. -/
structure DBState where
  item_price_history : List ItemPriceHistory
  price_alerts : List PriceAlert
  price_alert_settings : Option PriceAlertSettings
  item_merge_mappings : List MergeMapping
  deriving Repr, DecidableEq

/-! ## Alerting rule and price-history write
(`create_invoice`, server.py lines 1443–1527) -/

/-- Case-insensitive supplier match: the Mongo query
`{"$regex": f"^{supplier}$", "$options": "i"}` used at server.py
line 1451 — an anchored, case-insensitive exact match. -/
def supplierMatches (pattern s : Str) : Bool :=
  strLower s = strLower pattern

/-- `db.item_price_history.find_one(..., sort=[("invoice_date", -1)])`
(server.py lines 1448–1456): the record with the greatest
`invoice_date` among those matching (tenant, supplier
case-insensitively, normalized item name); among equal dates the one
encountered first. -/
def find_last_price (history : List ItemPriceHistory) (company_id : Nat)
    (supplier item_name : Str) : Option ItemPriceHistory :=
  (history.filter (fun r =>
      r.company_id = company_id &&
      supplierMatches supplier r.supplier &&
      r.item_name = item_name)).foldl
    (fun acc r =>
      match acc with
      | none => some r
      | some b => if r.invoice_date > b.invoice_date then some r else some b)
    none

/-- `alert_settings.get("threshold_percent", 10.0) if alert_settings
else 10.0` (server.py line 1463). -/
def effectiveThreshold (s : Option PriceAlertSettings) : ℚ :=
  match s with
  | some st => st.threshold_percent
  | none => 10

/-- `alert_settings.get("enabled", True) if alert_settings else True`
(server.py line 1464). -/
def effectiveEnabled (s : Option PriceAlertSettings) : Bool :=
  match s with
  | some st => st.enabled
  | none => true

/-- The alert decision of server.py lines 1466–1485: given the prior
record found (if any) and the settings, produce the `PriceAlert`
appended to `price_alerts`, or `none`. -/
def checkPriceAlert (last : Option ItemPriceHistory)
    (settings : Option PriceAlertSettings) (company_id : Nat)
    (item_name supplier invoice_number : Str) (new_price : ℚ) :
    Option PriceAlert :=
  match last with
  | none => none
  | some last_record =>
    if effectiveEnabled settings then
      let old_price := last_record.unit_price
      if old_price > 0 then
        let change_percent := (new_price - old_price) / old_price * 100
        if change_percent ≥ effectiveThreshold settings then
          some { company_id := company_id
                 item_name := item_name
                 supplier := supplier
                 old_price := old_price
                 new_price := new_price
                 change_percent := round2 change_percent
                 invoice_number := invoice_number
                 status := .unread }
        else none
      else none
    else none

/-- The per-line-item body of `create_invoice` for a user with a
company (server.py lines 1443–1499 together with the deferred alert
insert at lines 1524–1527): normalize the name, look up the most
recent prior price, maybe create an alert, and unconditionally append
the new occurrence to `item_price_history`. -/
def recordInvoiceItem (st : DBState) (company_id : Nat)
    (supplier invoice_number : Str) (item_name : Str)
    (unit_price quantity : ℚ) (unit : Str) (invoice_date : ℤ) : DBState :=
  let normalized_name := normalizeName item_name
  let last_price_record :=
    find_last_price st.item_price_history company_id supplier normalized_name
  let alert := checkPriceAlert last_price_record st.price_alert_settings
    company_id item_name supplier invoice_number unit_price
  let price_history : ItemPriceHistory :=
    { company_id := company_id
      supplier := supplier
      item_name := normalized_name
      unit_price := unit_price
      quantity := quantity
      unit := unit
      invoice_number := invoice_number
      invoice_date := invoice_date }
  { st with
    item_price_history := st.item_price_history ++ [price_history]
    price_alerts := st.price_alerts ++ alert.toList }

/-- `update_price_alert_settings` (server.py lines 3036–3067): upsert
of the per-tenant settings from an optional threshold and an optional
enabled flag in the request body; on insert, Pydantic defaults fill
the missing fields. -/
def update_price_alert_settings (existing : Option PriceAlertSettings)
    (company_id : Nat) (threshold? : Option ℚ) (enabled? : Option Bool) :
    PriceAlertSettings :=
  match existing with
  | some s =>
      { s with
        threshold_percent := threshold?.getD s.threshold_percent
        enabled := enabled?.getD s.enabled }
  | none =>
      { company_id := company_id
        threshold_percent := threshold?.getD 10
        enabled := enabled?.getD true }

/-! ## Unmerged item statistics
(`get_item_statistics`, server.py lines 3146–3269) -/

/-- The accumulator of the `defaultdict` at server.py lines 3190–3196:
per-item quantity, value, frequency, price list and supplier set.  The
Python `set` of suppliers is modelled as a duplicate-free list (only
its size is ever read). -/
structure ItemAgg where
  quantity : ℚ := 0
  total_value : ℚ := 0
  frequency : Nat := 0
  prices : List ℚ := []
  suppliers : List Str := []
  deriving Repr, DecidableEq

/-- One record folded into the accumulator (server.py lines 3198–3207). -/
def foldRecord (a : ItemAgg) (r : ItemPriceHistory) : ItemAgg :=
  { quantity := a.quantity + r.quantity
    total_value := a.total_value + r.unit_price * r.quantity
    frequency := a.frequency + 1
    prices := a.prices ++ [r.unit_price]
    suppliers :=
      if a.suppliers.contains r.supplier then a.suppliers
      else a.suppliers ++ [r.supplier] }

/-- Update an insertion-ordered association list at a key (CPython
`dict` semantics: an existing key keeps its position, a new key is
appended). -/
def updateAssoc (key : Str) (r : ItemPriceHistory) :
    List (Str × ItemAgg) → List (Str × ItemAgg)
  | [] => [(key, foldRecord {} r)]
  | (k, a) :: rest =>
      if k = key then (k, foldRecord a r) :: rest
      else (k, a) :: updateAssoc key r rest

/-- The grouping loop of server.py lines 3198–3207: records are
bucketed by the *stored* `item_name` field, with no re-normalization. -/
def aggregateItems (history : List ItemPriceHistory) : List (Str × ItemAgg) :=
  history.foldl (fun m r => updateAssoc r.item_name r m) []

/-- The trend computation of server.py lines 3222–3228: for ≥ 4 price
points, percentage change from the mean of the first half (of length
`n / 2`) to the mean of the second half, guarded by
`first_half > 0`; otherwise 0. -/
def trendOf (prices : List ℚ) : ℚ :=
  if prices.length ≥ 4 then
    let h := prices.length / 2
    let first_half := (prices.take h).sum / (h : ℚ)
    let second_half := (prices.drop h).sum / ((prices.length - h : ℕ) : ℚ)
    if first_half > 0 then (second_half - first_half) / first_half * 100
    else 0
  else 0

/-- The per-item output row of `get_item_statistics` (server.py lines
3230–3241).  The `price_variance` output (a relative standard
deviation, server.py lines 3216–3220) involves a real square root and
is not representable over `ℚ`; no claim concerns it and it is omitted
here. -/
structure ItemStatRow where
  item_name : Str
  quantity : ℚ
  total_value : ℚ
  frequency : Nat
  avg_price : ℚ
  min_price : ℚ
  max_price : ℚ
  trend_percent : ℚ
  supplier_count : Nat
  deriving Repr, DecidableEq

/-- Minimum of a price list (Python `min(prices)`; the list is
non-empty whenever this is reached). -/
def listMin (l : List ℚ) : ℚ :=
  match l with
  | [] => 0
  | x :: xs => xs.foldl min x

/-- Maximum of a price list (Python `max(prices)`). -/
def listMax (l : List ℚ) : ℚ :=
  match l with
  | [] => 0
  | x :: xs => xs.foldl max x

/-- Build one output row from an accumulator entry (server.py lines
3211–3241). -/
def mkItemStatRow (name : Str) (stats : ItemAgg) : ItemStatRow :=
  let prices := stats.prices
  let avg_price := if prices ≠ [] then prices.sum / (prices.length : ℚ) else 0
  { item_name := name
    quantity := round2 stats.quantity
    total_value := round2 stats.total_value
    frequency := stats.frequency
    avg_price := round2 avg_price
    min_price := if prices ≠ [] then round2 (listMin prices) else 0
    max_price := if prices ≠ [] then round2 (listMax prices) else 0
    trend_percent := roundTo 1 (trendOf prices)
    supplier_count := stats.suppliers.length }

/-- Python `sorted(l, key=k, reverse=True)`: a stable descending sort.
`List.mergeSort` keeps the original relative order of elements the
comparison ties, matching CPython's stable sort. -/
def sortedDescBy (key : ItemStatRow → ℚ) (l : List ItemStatRow) :
    List ItemStatRow :=
  l.mergeSort (fun a b => key b ≤ key a)

/-- Sort key variant for the frequency ranking. -/
def sortedDescByNat (key : ItemStatRow → Nat) (l : List ItemStatRow) :
    List ItemStatRow :=
  l.mergeSort (fun a b => key b ≤ key a)

/-- The response of `get_item_statistics` (server.py lines 3259–3269). -/
structure ItemStatisticsResult where
  total_items : ℚ
  total_value : ℚ
  unique_items : Nat
  top_by_quantity : List ItemStatRow
  top_by_value : List ItemStatRow
  top_by_frequency : List ItemStatRow
  price_trends : List ItemStatRow
  deriving Repr, DecidableEq

/-- `get_item_statistics` (server.py lines 3146–3269) on the records
already fetched for the tenant and window: aggregation, per-item
statistics, ranked views and overall totals.  An empty fetch returns
the all-zero result (server.py lines 3180–3187). -/
def get_item_statistics (history : List ItemPriceHistory)
    (top_n : Nat := 10) : ItemStatisticsResult :=
  if history = [] then
    { total_items := 0, total_value := 0, unique_items := 0
      top_by_quantity := [], top_by_value := [], top_by_frequency := []
      price_trends := [] }
  else
    let item_stats := aggregateItems history
    let items_list := item_stats.map (fun p => mkItemStatRow p.1 p.2)
    { total_items := round2 (items_list.map (·.quantity)).sum
      total_value := round2 (items_list.map (·.total_value)).sum
      unique_items := items_list.length
      top_by_quantity := (sortedDescBy (·.quantity) items_list).take top_n
      top_by_value := (sortedDescBy (·.total_value) items_list).take top_n
      top_by_frequency := (sortedDescByNat (·.frequency) items_list).take top_n
      price_trends :=
        ((items_list.filter (fun i => 5 < |i.trend_percent|)).mergeSort
          (fun a b => |b.trend_percent| ≤ |a.trend_percent|)).take top_n }

/-! ## Merge mappings and merged statistics
(server.py lines 3415–3437, 3467–3489, 3491–3623) -/

/-- CPython `dict` assignment `d[k] = v` on an insertion-ordered
association list: overwrite in place, or append a new key. -/
def dictSet (l : List (Str × Str)) (k v : Str) : List (Str × Str) :=
  match l with
  | [] => [(k, v)]
  | (k', v') :: rest =>
      if k' = k then (k', v) :: rest else (k', v') :: dictSet rest k v

/-- CPython `d.get(k)` / `k in d`: first (unique) binding of the key. -/
def dictGet (l : List (Str × Str)) (k : Str) : Option Str :=
  match l with
  | [] => none
  | (k', v') :: rest => if k' = k then some v' else dictGet rest k

/-- The merge-mapping upsert performed when an AI merge proposal is
accepted (server.py lines 3425–3437):
`update_one({company_id, canonical_name: canonical.lower()},
{"$set": {canonical_name: canonical.lower(), display_name: canonical,
variants: [v.lower() ...], company_id, ...}}, upsert=True)`. -/
def upsert_merge_mapping (mappings : List MergeMapping) (company_id : Nat)
    (canonical : Str) (variants : List Str) : List MergeMapping :=
  let key := strLower canonical
  let doc : MergeMapping :=
    { company_id := company_id
      canonical_name := key
      display_name := canonical
      variants := variants.map strLower }
  let rec replaceFirst : List MergeMapping → Option (List MergeMapping)
    | [] => none
    | m :: rest =>
        if m.company_id = company_id ∧ m.canonical_name = key then
          some (doc :: rest)
        else
          (replaceFirst rest).map (m :: ·)
  match replaceFirst mappings with
  | some ms => ms
  | none => mappings ++ [doc]

/-- `delete_merge_mapping` (server.py lines 3467–3489):
`delete_one({company_id, canonical_name: name.lower()})`; answers 404
(`Except.error`) when nothing was deleted. -/
def delete_merge_mapping (mappings : List MergeMapping) (company_id : Nat)
    (canonical_name : Str) : Except Unit (List MergeMapping) :=
  let key := strLower canonical_name
  let rec removeFirst : List MergeMapping → Option (List MergeMapping)
    | [] => none
    | m :: rest =>
        if m.company_id = company_id ∧ m.canonical_name = key then some rest
        else (removeFirst rest).map (m :: ·)
  match removeFirst mappings with
  | some ms => Except.ok ms
  | none => Except.error ()

/-- The variant index built at server.py lines 3521–3528: the pair
`(variant_to_canonical, canonical_display)`.  Each mapping contributes
its `canonical_name → display_name` binding to the second dict and a
`variant.lower() → canonical_name` binding per variant to the first;
the canonical key itself is *not* inserted into
`variant_to_canonical`. -/
def buildVariantIndex (mappings : List MergeMapping) :
    List (Str × Str) × List (Str × Str) :=
  mappings.foldl
    (fun acc m =>
      let canonical := m.canonical_name
      let cd := dictSet acc.2 canonical m.display_name
      let vc := m.variants.foldl
        (fun vc v => dictSet vc (strLower v) canonical) acc.1
      (vc, cd))
    ([], [])

/-- Name resolution per record (server.py lines 3563–3573): returns
`(canonical bucket key, display name, counted as merged?)`. -/
def resolveName (vc cd : List (Str × Str)) (original_name : Str) :
    Str × Str × Bool :=
  let name_lower := strLower original_name
  match dictGet vc name_lower with
  | some canonical =>
      let display :=
        match dictGet cd canonical with
        | some d => d
        | none => pyTitle canonical
      (canonical, display, true)
  | none => (name_lower, original_name, false)

/-- The merged accumulator (server.py lines 3551–3559).  The two
Python `set`s are modelled as duplicate-free lists in first-insertion
order. -/
structure MergedAgg where
  display_name : Str := []
  quantity : ℚ := 0
  total_value : ℚ := 0
  frequency : Nat := 0
  prices : List ℚ := []
  suppliers : List Str := []
  original_names : List Str := []
  deriving Repr, DecidableEq

/-- One record folded into a merged accumulator (server.py lines
3578–3584); the `display_name` field is overwritten by every record
that lands in the bucket. -/
def foldMergedRecord (display : Str) (a : MergedAgg) (r : ItemPriceHistory) :
    MergedAgg :=
  { display_name := display
    quantity := a.quantity + r.quantity
    total_value := a.total_value + r.unit_price * r.quantity
    frequency := a.frequency + 1
    prices := a.prices ++ [r.unit_price]
    suppliers :=
      if a.suppliers.contains r.supplier then a.suppliers
      else a.suppliers ++ [r.supplier]
    original_names :=
      if a.original_names.contains r.item_name then a.original_names
      else a.original_names ++ [r.item_name] }

/-- `dict` update for the merged accumulator map. -/
def updateMergedAssoc (key display : Str) (r : ItemPriceHistory) :
    List (Str × MergedAgg) → List (Str × MergedAgg)
  | [] => [(key, foldMergedRecord display {} r)]
  | (k, a) :: rest =>
      if k = key then (k, foldMergedRecord display a r) :: rest
      else (k, a) :: updateMergedAssoc key display r rest

/-- One iteration of the merged grouping loop (server.py lines
3562–3584): resolve the record through the variant index, bucket it
under the resolved canonical key, and bump `merged_count` when it went
through the index. -/
def mergedStep (vc cd : List (Str × Str))
    (acc : List (Str × MergedAgg) × Nat) (r : ItemPriceHistory) :
    List (Str × MergedAgg) × Nat :=
  let res := resolveName vc cd r.item_name
  (updateMergedAssoc res.1 res.2.1 r acc.1,
   if res.2.2 then acc.2 + 1 else acc.2)

/-- The merged grouping loop (server.py lines 3561–3584). -/
def aggregateMerged (vc cd : List (Str × Str))
    (history : List ItemPriceHistory) : List (Str × MergedAgg) × Nat :=
  history.foldl (mergedStep vc cd) ([], 0)

/-- One output row of `get_merged_item_statistics` (server.py lines
3597–3606). -/
structure MergedStatRow where
  name : Str
  canonical_name : Str
  total_quantity : ℚ
  total_value : ℚ
  frequency : Nat
  avg_price : ℚ
  supplier_count : Nat
  original_names : List Str
  deriving Repr, DecidableEq

/-- Build one output row from a merged accumulator entry. -/
def mkMergedStatRow (canonical : Str) (stats : MergedAgg) : MergedStatRow :=
  let prices := stats.prices
  let avg_price := if prices ≠ [] then prices.sum / (prices.length : ℚ) else 0
  { name := stats.display_name
    canonical_name := canonical
    total_quantity := round2 stats.quantity
    total_value := round2 stats.total_value
    frequency := stats.frequency
    avg_price := round2 avg_price
    supplier_count := stats.suppliers.length
    original_names := stats.original_names.take 5 }

/-- Stable descending sort for the merged rows. -/
def sortedMergedDescBy (key : MergedStatRow → ℚ) (l : List MergedStatRow) :
    List MergedStatRow :=
  l.mergeSort (fun a b => key b ≤ key a)

/-- The response of `get_merged_item_statistics` (server.py lines
3612–3623).  When the endpoint returns early on an empty fetch
(lines 3542–3548) the `merge_groups_count` key is absent from the
response; it is modelled as 0 there. -/
structure MergedStatisticsResult where
  total_items : Nat
  total_value : ℚ
  unique_items : Nat
  merged_items : Nat
  top_by_quantity : List MergedStatRow
  top_by_value : List MergedStatRow
  merge_applied : Bool
  merge_groups_count : Nat
  deriving Repr, DecidableEq

/-- `get_merged_item_statistics` (server.py lines 3491–3623) on the
tenant's stored mappings and the records already fetched for the
window. -/
def get_merged_item_statistics (mappings : List MergeMapping)
    (history : List ItemPriceHistory) (top_n : Nat := 10) :
    MergedStatisticsResult :=
  let idx := buildVariantIndex mappings
  if history = [] then
    { total_items := 0, total_value := 0, unique_items := 0
      merged_items := 0, top_by_quantity := [], top_by_value := []
      merge_applied := mappings ≠ [], merge_groups_count := 0 }
  else
    let agg := aggregateMerged idx.1 idx.2 history
    let item_stats := agg.1
    let items_list := item_stats.map (fun p => mkMergedStatRow p.1 p.2)
    { total_items := (item_stats.map (·.2.frequency)).sum
      total_value := round2 (item_stats.map (·.2.total_value)).sum
      unique_items := item_stats.length
      merged_items := agg.2
      top_by_quantity := (sortedMergedDescBy (·.total_quantity) items_list).take top_n
      top_by_value := (sortedMergedDescBy (·.total_value) items_list).take top_n
      merge_applied := mappings ≠ []
      merge_groups_count := mappings.length }

/-! ## Normalization lemmas -/

theorem pyLower_idem (c : Nat) : pyLower (pyLower c) = pyLower c := by
  unfold pyLower
  split_ifs <;> omega

theorem pyIsSpace_pyLower (c : Nat) : pyIsSpace (pyLower c) = pyIsSpace c := by
  rw [Bool.eq_iff_iff]
  unfold pyIsSpace pyLower
  split_ifs <;> simp <;> omega

theorem strLower_idem (s : Str) : strLower (strLower s) = strLower s := by
  simp only [strLower, List.map_map]
  exact List.map_congr_left fun c _ => pyLower_idem c

theorem dropWhile_dropWhile (p : Nat → Bool) (l : List Nat) :
    (l.dropWhile p).dropWhile p = l.dropWhile p := by
  induction l with
  | nil => rfl
  | cons a l ih =>
      by_cases h : p a
      · simp [List.dropWhile_cons, h, ih]
      · simp [List.dropWhile_cons, h]

theorem lstrip_idem (s : Str) : lstrip (lstrip s) = lstrip s :=
  dropWhile_dropWhile _ _

theorem rstrip_idem (s : Str) : rstrip (rstrip s) = rstrip s := by
  unfold rstrip
  rw [List.reverse_reverse, dropWhile_dropWhile]

theorem lstrip_eq_self_head (a : Nat) (t : Str) (h : lstrip (a :: t) = a :: t) :
    pyIsSpace a = false := by
  unfold lstrip at h
  rw [List.dropWhile_cons] at h
  by_contra hc
  rw [Bool.not_eq_false] at hc
  rw [if_pos hc] at h
  have hle := (List.dropWhile_sublist (l := t) pyIsSpace).length_le
  have hlen := congrArg List.length h
  simp at hlen
  omega

theorem rstrip_decomp (s : Str) :
    ∃ ws, s = rstrip s ++ ws ∧ ∀ c ∈ ws, pyIsSpace c = true := by
  refine ⟨(s.reverse.takeWhile pyIsSpace).reverse, ?_, ?_⟩
  · conv_lhs => rw [← s.reverse_reverse,
      ← List.takeWhile_append_dropWhile (p := pyIsSpace) (l := s.reverse)]
    rw [List.reverse_append]
    rfl
  · intro c hc
    rw [List.mem_reverse] at hc
    exact List.mem_takeWhile_imp hc

theorem lstrip_rstrip (m : Str) (h : lstrip m = m) :
    lstrip (rstrip m) = rstrip m := by
  obtain ⟨ws, hm, _⟩ := rstrip_decomp m
  match hr : rstrip m with
  | [] => rfl
  | a :: t =>
      rw [hr] at hm
      have ha : pyIsSpace a = false := by
        apply lstrip_eq_self_head a (t ++ ws)
        rw [← List.cons_append, ← hm]
        exact h
      unfold lstrip
      rw [List.dropWhile_cons, if_neg (by simp [ha])]

theorem strip_idem (s : Str) : strip (strip s) = strip s := by
  unfold strip
  rw [lstrip_rstrip (lstrip s) (lstrip_idem s), rstrip_idem]

theorem lstrip_strLower (s : Str) : lstrip (strLower s) = strLower (lstrip s) := by
  have hfun : (pyIsSpace ∘ pyLower) = pyIsSpace := funext fun c => pyIsSpace_pyLower c
  unfold lstrip strLower
  rw [List.dropWhile_map, hfun]

theorem rstrip_strLower (s : Str) : rstrip (strLower s) = strLower (rstrip s) := by
  have hfun : (pyIsSpace ∘ pyLower) = pyIsSpace := funext fun c => pyIsSpace_pyLower c
  unfold rstrip strLower
  rw [← List.map_reverse, List.dropWhile_map, hfun, List.map_reverse]

theorem strip_strLower (s : Str) : strip (strLower s) = strLower (strip s) := by
  unfold strip
  rw [lstrip_strLower, rstrip_strLower]

theorem normalizeName_eq_strip_lower (s : Str) :
    normalizeName s = strip (strLower s) := by
  unfold normalizeName
  rw [strip_strLower]

theorem normalizeName_idem (s : Str) :
    normalizeName (normalizeName s) = normalizeName s := by
  unfold normalizeName
  rw [strip_strLower, strLower_idem, strip_idem]

theorem dropWhile_append_of_all (p : Nat → Bool) (ws l : List Nat)
    (h : ∀ c ∈ ws, p c = true) : (ws ++ l).dropWhile p = l.dropWhile p := by
  induction ws with
  | nil => rfl
  | cons a ws ih =>
      rw [List.cons_append, List.dropWhile_cons,
        if_pos (h a (List.mem_cons_self a ws))]
      exact ih fun c hc => h c (List.mem_cons_of_mem a hc)

theorem lstrip_space_prefix (ws s : Str) (h : ∀ c ∈ ws, pyIsSpace c = true) :
    lstrip (ws ++ s) = lstrip s :=
  dropWhile_append_of_all _ _ _ h

theorem rstrip_space_suffix (s ws : Str) (h : ∀ c ∈ ws, pyIsSpace c = true) :
    rstrip (s ++ ws) = rstrip s := by
  unfold rstrip
  rw [List.reverse_append, dropWhile_append_of_all _ _ _
    (fun c hc => h c (List.mem_reverse.mp hc))]

theorem strip_surround (ws1 n ws2 : Str)
    (h1 : ∀ c ∈ ws1, pyIsSpace c = true) (h2 : ∀ c ∈ ws2, pyIsSpace c = true) :
    strip (ws1 ++ n ++ ws2) = strip n := by
  unfold strip
  rw [List.append_assoc, lstrip_space_prefix _ _ h1]
  by_cases hn : lstrip n = []
  · have hws2 : lstrip ws2 = [] := by
      have := dropWhile_append_of_all pyIsSpace ws2 [] h2
      simpa [lstrip] using this
    have : lstrip (n ++ ws2) = [] := by
      unfold lstrip at hn hws2 ⊢
      rw [List.dropWhile_append, hn]
      simpa using hws2
    rw [this, hn]
  · have : lstrip (n ++ ws2) = lstrip n ++ ws2 := by
      unfold lstrip at hn ⊢
      rw [List.dropWhile_append]
      simp [List.isEmpty_iff, hn]
    rw [this, rstrip_space_suffix _ _ h2]

theorem normalizeName_surround (ws1 n ws2 : Str)
    (h1 : ∀ c ∈ ws1, pyIsSpace c = true) (h2 : ∀ c ∈ ws2, pyIsSpace c = true) :
    normalizeName (ws1 ++ n ++ ws2) = normalizeName n := by
  unfold normalizeName
  rw [strip_surround ws1 n ws2 h1 h2]

theorem normalizeName_of_strLower_eq (n1 n2 : Str)
    (h : strLower n1 = strLower n2) : normalizeName n1 = normalizeName n2 := by
  rw [normalizeName_eq_strip_lower, normalizeName_eq_strip_lower, h]

/-! ## Claims -/

/-- **C10** — Every price-history record written at invoice-entry time
stores the item name already normalized: the stored key equals
`strip(lower(n))` of the raw entered name and is a fixed point of
normalization; consequently the unmerged statistics path, which groups
by the stored `item_name` without re-normalizing, groups case- and
whitespace-insensitively over the names as originally entered. -/
theorem C10_price_history_stores_normalized_names (st : DBState)
    (company_id : Nat) (supplier invoice_number item_name : Str)
    (unit_price quantity : ℚ) (unit : Str) (invoice_date : ℤ) :
    (recordInvoiceItem st company_id supplier invoice_number item_name
        unit_price quantity unit invoice_date).item_price_history
      = st.item_price_history ++
        [{ company_id := company_id, supplier := supplier
           item_name := strip (strLower item_name)
           unit_price := unit_price, quantity := quantity, unit := unit
           invoice_number := invoice_number, invoice_date := invoice_date }]
    ∧ normalizeName (strip (strLower item_name)) = strip (strLower item_name)
    ∧ (∀ n1 n2 : Str, strLower n1 = strLower n2 →
        normalizeName n1 = normalizeName n2)
    ∧ (∀ ws1 n ws2 : Str, (∀ c ∈ ws1, pyIsSpace c = true) →
        (∀ c ∈ ws2, pyIsSpace c = true) →
        normalizeName (ws1 ++ n ++ ws2) = normalizeName n)
    ∧ (∀ r1 r2 : ItemPriceHistory, r1.item_name = r2.item_name →
        (aggregateItems [r1, r2]).length = 1) := by
  refine ⟨?_, ?_, normalizeName_of_strLower_eq, normalizeName_surround, ?_⟩
  · simp [recordInvoiceItem, normalizeName_eq_strip_lower]
  · conv_lhs => rw [← normalizeName_eq_strip_lower]
    rw [normalizeName_idem, normalizeName_eq_strip_lower]
  · intro r1 r2 h
    simp [aggregateItems, updateAssoc, h]

/-- Witness for C10 at a concrete input: raw name `" A"` (space,
`'A'`) is stored as `"a"`, and surrounding whitespace does not change
the normalized key. -/
theorem C10_witness :
    ((recordInvoiceItem ⟨[], [], none, []⟩ 1 [97] [49] [32, 65]
        1 1 [] 0).item_price_history.map (·.item_name) = [[97]])
    ∧ normalizeName ([32] ++ [65] ++ []) = normalizeName [65] := by
  have h := C10_price_history_stores_normalized_names ⟨[], [], none, []⟩
    1 [97] [49] [32, 65] 1 1 [] 0
  constructor
  · rw [h.1]
    decide
  · exact h.2.2.2.1 [32] [65] [] (by decide) (by decide)

/-! ## Alerting-rule lemmas -/

theorem checkPriceAlert_fires (prior : ItemPriceHistory)
    (settings : Option PriceAlertSettings) (c : Nat) (n sup inv : Str)
    (p : ℚ) (hold : prior.unit_price > 0)
    (hen : effectiveEnabled settings = true)
    (hth : (p - prior.unit_price) / prior.unit_price * 100
      ≥ effectiveThreshold settings) :
    checkPriceAlert (some prior) settings c n sup inv p
      = some { company_id := c, item_name := n, supplier := sup
               old_price := prior.unit_price, new_price := p
               change_percent :=
                 round2 ((p - prior.unit_price) / prior.unit_price * 100)
               invoice_number := inv, status := .unread } := by
  unfold checkPriceAlert
  rw [hen]
  simp only [if_true]
  rw [if_pos hold, if_pos hth]

theorem checkPriceAlert_silent (prior : ItemPriceHistory)
    (settings : Option PriceAlertSettings) (c : Nat) (n sup inv : Str)
    (p : ℚ)
    (hth : (p - prior.unit_price) / prior.unit_price * 100
      < effectiveThreshold settings) :
    checkPriceAlert (some prior) settings c n sup inv p = none := by
  unfold checkPriceAlert
  by_cases hen : effectiveEnabled settings
  · rw [hen]
    simp only [if_true]
    by_cases hold : prior.unit_price > 0
    · rw [if_pos hold, if_neg (not_le.mpr hth)]
    · rw [if_neg hold]
  · simp [hen]

theorem checkPriceAlert_none_of (last : Option ItemPriceHistory)
    (settings : Option PriceAlertSettings) (c : Nat) (n sup inv : Str)
    (p : ℚ)
    (h : last = none ∨ effectiveEnabled settings = false ∨
      ∃ r, last = some r ∧ ¬r.unit_price > 0) :
    checkPriceAlert last settings c n sup inv p = none := by
  rcases h with h | h | ⟨r, hr, hp⟩
  · rw [h]
    rfl
  · cases last with
    | none => rfl
    | some r => simp [checkPriceAlert, h]
  · subst hr
    simp [checkPriceAlert, hp]

/-- A concrete tenant state for the boundary examples of the spec:
one prior purchase of item `"o"` from supplier `"s"` at unit price
10.00, alerting enabled at the default 10 % threshold. -/
def boundaryState : DBState :=
  { item_price_history := [⟨1, [115], [111], 10, 1, [], [48], 0⟩]
    price_alerts := []
    price_alert_settings := some ⟨1, 10, true⟩
    item_merge_mappings := [] }

/-- **C1** — With a prior record for the same (tenant, supplier
case-insensitive, normalized item name), alerting enabled, and prior
price > 0, an `unread` `PriceAlert` is created iff
`(new - old) / old * 100 ≥ threshold`; at prior price 10.00 and new
price 11.00 with threshold 10 an alert with `change_percent = 10.0` is
created (equality fires), and at new price 10.99 none is. -/
theorem C1_alert_threshold_iff_and_boundary (st : DBState) (c : Nat)
    (sup inv name : Str) (q : ℚ) (u : Str) (d : ℤ) (new_price : ℚ)
    (prior : ItemPriceHistory)
    (hlast : find_last_price st.item_price_history c sup (normalizeName name)
      = some prior)
    (hold : prior.unit_price > 0)
    (hen : effectiveEnabled st.price_alert_settings = true) :
    ((new_price - prior.unit_price) / prior.unit_price * 100
        ≥ effectiveThreshold st.price_alert_settings →
      (recordInvoiceItem st c sup inv name new_price q u d).price_alerts
        = st.price_alerts ++
          [{ company_id := c, item_name := name, supplier := sup
             old_price := prior.unit_price, new_price := new_price
             change_percent := round2
               ((new_price - prior.unit_price) / prior.unit_price * 100)
             invoice_number := inv, status := .unread }])
    ∧ ((new_price - prior.unit_price) / prior.unit_price * 100
        < effectiveThreshold st.price_alert_settings →
      (recordInvoiceItem st c sup inv name new_price q u d).price_alerts
        = st.price_alerts)
    ∧ (recordInvoiceItem boundaryState 1 [115] [49] [111] 11 1 [] 1).price_alerts
        = [⟨1, [111], [115], 10, 11, 10, [49], .unread⟩]
    ∧ (recordInvoiceItem boundaryState 1 [115] [49] [111] (1099/100) 1 [] 1).price_alerts
        = [] := by
  refine ⟨?_, ?_, ?_, ?_⟩
  · intro hth
    simp only [recordInvoiceItem]
    rw [hlast, checkPriceAlert_fires prior _ c name sup inv new_price hold hen hth]
    rfl
  · intro hth
    simp only [recordInvoiceItem]
    rw [hlast, checkPriceAlert_silent prior _ c name sup inv new_price hth]
    simp
  · norm_num [boundaryState, recordInvoiceItem, checkPriceAlert,
      find_last_price, supplierMatches, effectiveEnabled, effectiveThreshold,
      normalizeName, strLower, strip, lstrip, rstrip, pyIsSpace, pyLower,
      round2, roundTo, roundHalfEven, List.filter, PriceAlert.mk.injEq]
  · norm_num [boundaryState, recordInvoiceItem, checkPriceAlert,
      find_last_price, supplierMatches, effectiveEnabled, effectiveThreshold,
      normalizeName, strLower, strip, lstrip, rstrip, pyIsSpace, pyLower,
      round2, roundTo, roundHalfEven, List.filter]

/-- Witness for C1: the 10.00 → 11.00 boundary case, with every
hypothesis discharged at the concrete state. -/
theorem C1_witness :
    (recordInvoiceItem boundaryState 1 [115] [49] [111] 11 1 [] 1).price_alerts
      = [⟨1, [111], [115], 10, 11, 10, [49], .unread⟩] :=
  (C1_alert_threshold_iff_and_boundary boundaryState 1 [115] [49] [111]
    1 [] 1 11 ⟨1, [115], [111], 10, 1, [], [48], 0⟩
    rfl (by norm_num) rfl).2.2.1

/-- **C6, counterexample** — The claim quantifies over *every*
reachable `AlertSettings` state, but `update_price_alert_settings`
accepts any float threshold (server.py line 3052) with no sign check:
after setting `threshold_percent = -50`, recording a price *decrease*
10.00 → 9.00 (change −10 % ≥ −50 %) does create an alert. -/
theorem C6_counterexample :
    update_price_alert_settings none 1 (some (-50)) none
      = { company_id := 1, threshold_percent := -50, enabled := true }
    ∧ (recordInvoiceItem
        { item_price_history := [⟨1, [115], [111], 10, 1, [], [48], 0⟩]
          price_alerts := []
          price_alert_settings :=
            some (update_price_alert_settings none 1 (some (-50)) none)
          item_merge_mappings := [] }
        1 [115] [49] [111] 9 1 [] 1).price_alerts
      ≠ [] := by
  constructor
  · rfl
  · norm_num [update_price_alert_settings, recordInvoiceItem, checkPriceAlert,
      find_last_price, supplierMatches, effectiveEnabled, effectiveThreshold,
      normalizeName, strLower, strip, lstrip, rstrip, pyIsSpace, pyLower,
      round2, roundTo, roundHalfEven, List.filter]

/-- **C6, amended** — For every settings state whose effective
threshold is non-negative (which includes the default 10 % and
anything a sign-checked update would produce), a price decrease (new
unit price strictly below the most recent prior unit price) never
creates a `PriceAlert`. -/
theorem C6_no_alert_on_decrease (st : DBState) (c : Nat)
    (sup inv name : Str) (q : ℚ) (u : Str) (d : ℤ) (new_price : ℚ)
    (hth : 0 ≤ effectiveThreshold st.price_alert_settings)
    (hdec : ∀ prior,
      find_last_price st.item_price_history c sup (normalizeName name)
        = some prior → new_price < prior.unit_price) :
    (recordInvoiceItem st c sup inv name new_price q u d).price_alerts
      = st.price_alerts := by
  simp only [recordInvoiceItem]
  cases hfind : find_last_price st.item_price_history c sup (normalizeName name) with
  | none =>
      rw [checkPriceAlert_none_of _ _ _ _ _ _ _ (Or.inl rfl)]
      simp
  | some prior =>
      have hlt := hdec prior hfind
      by_cases hold : prior.unit_price > 0
      · have hneg : (new_price - prior.unit_price) / prior.unit_price * 100 < 0 := by
          have h1 : new_price - prior.unit_price < 0 := by linarith
          have h2 := div_neg_of_neg_of_pos h1 hold
          linarith
        rw [checkPriceAlert_silent prior _ c name sup inv new_price
          (by linarith)]
        simp
      · rw [checkPriceAlert_none_of _ _ _ _ _ _ _
          (Or.inr (Or.inr ⟨prior, rfl, hold⟩))]
        simp

/-- Witness for the amended C6: at the boundary state (threshold 10,
prior price 10.00), recording a decrease to 9.00 leaves the alert
collection unchanged. -/
theorem C6_witness :
    (recordInvoiceItem boundaryState 1 [115] [49] [111] 9 1 [] 1).price_alerts
      = boundaryState.price_alerts := by
  apply C6_no_alert_on_decrease boundaryState 1 [115] [49] [111] 1 [] 1 9
  · norm_num [boundaryState, effectiveThreshold]
  · intro prior hp
    have h9 : (⟨1, [115], [111], 10, 1, [], [48], 0⟩ : ItemPriceHistory)
        = prior := by
      injection hp
    rw [← h9]
    norm_num

/-- **C7** — Recording a new occurrence is a silent no-op for the
alert collection (and never an error: the embedded operation is total,
mirroring the absence of any `raise` in server.py lines 1443–1499)
when no prior occurrence exists, alerting is disabled, or the prior
unit price is zero; the occurrence itself is still appended.  With an
empty matching history the first disjunct holds for every new price. -/
theorem C7_no_alert_cases (st : DBState) (c : Nat) (sup inv name : Str)
    (new_price q : ℚ) (u : Str) (d : ℤ)
    (h : find_last_price st.item_price_history c sup (normalizeName name) = none
      ∨ effectiveEnabled st.price_alert_settings = false
      ∨ ∃ prior,
          find_last_price st.item_price_history c sup (normalizeName name)
            = some prior ∧ prior.unit_price = 0) :
    (recordInvoiceItem st c sup inv name new_price q u d).price_alerts
      = st.price_alerts
    ∧ (recordInvoiceItem st c sup inv name new_price q u d).item_price_history
      = st.item_price_history ++
        [{ company_id := c, supplier := sup, item_name := normalizeName name
           unit_price := new_price, quantity := q, unit := u
           invoice_number := inv, invoice_date := d }] := by
  constructor
  · simp only [recordInvoiceItem]
    rw [checkPriceAlert_none_of _ _ _ _ _ _ _
      (h.imp id (Or.imp id fun hx =>
        ⟨hx.choose, hx.choose_spec.1, by simp [hx.choose_spec.2]⟩))]
    simp
  · rfl

/-- Witness for C7: an empty tenant state has no prior occurrence, so
recording at any price creates no alert and still writes history. -/
theorem C7_witness :
    (recordInvoiceItem ⟨[], [], none, []⟩ 1 [97] [49] [98] 5 1 [] 0).price_alerts
      = []
    ∧ (recordInvoiceItem ⟨[], [], none, []⟩ 1 [97] [49] [98] 5 1 [] 0).item_price_history
      = [⟨1, [97], [98], 5, 1, [], [49], 0⟩] := by
  have h := C7_no_alert_cases ⟨[], [], none, []⟩ 1 [97] [49] [98] 5 1 [] 0
    (Or.inl rfl)
  exact ⟨h.1, by rw [h.2]; rfl⟩

/-- **C8** — For every invoice line item recorded, the new occurrence
is appended to `item_price_history` unconditionally, while the
`PriceAlert` write alone is conditional on the threshold rule
(`checkPriceAlert`); the settings and merge-mapping collections are
untouched. -/
theorem C8_history_write_unconditional (st : DBState) (c : Nat)
    (sup inv name : Str) (new_price q : ℚ) (u : Str) (d : ℤ) :
    (recordInvoiceItem st c sup inv name new_price q u d).item_price_history
      = st.item_price_history ++
        [{ company_id := c, supplier := sup, item_name := normalizeName name
           unit_price := new_price, quantity := q, unit := u
           invoice_number := inv, invoice_date := d }]
    ∧ (recordInvoiceItem st c sup inv name new_price q u d).price_alerts
      = st.price_alerts ++
        (checkPriceAlert
          (find_last_price st.item_price_history c sup (normalizeName name))
          st.price_alert_settings c name sup inv new_price).toList
    ∧ (recordInvoiceItem st c sup inv name new_price q u d).price_alert_settings
      = st.price_alert_settings
    ∧ (recordInvoiceItem st c sup inv name new_price q u d).item_merge_mappings
      = st.item_merge_mappings :=
  ⟨rfl, rfl, rfl, rfl⟩

/-! ## Rounding and aggregation lemmas -/

theorem roundHalfEven_intCast (k : ℤ) : roundHalfEven (k : ℚ) = k := by
  unfold roundHalfEven
  rw [Int.floor_intCast]
  simp only [sub_self]
  rw [if_pos (by norm_num)]

theorem round2_idem (x : ℚ) : round2 (round2 x) = round2 x := by
  unfold round2 roundTo
  rw [div_mul_cancel₀ _ (by norm_num : ((10 : ℚ) ^ 2) ≠ 0), roundHalfEven_intCast]

theorem foldl_foldRecord_fields (t : List ItemPriceHistory) (agg : ItemAgg) :
    (t.foldl foldRecord agg).total_value
      = agg.total_value + (t.map fun r => r.unit_price * r.quantity).sum
    ∧ (t.foldl foldRecord agg).quantity
      = agg.quantity + (t.map (·.quantity)).sum
    ∧ (t.foldl foldRecord agg).frequency = agg.frequency + t.length
    ∧ (t.foldl foldRecord agg).prices = agg.prices ++ t.map (·.unit_price) := by
  induction t generalizing agg with
  | nil => simp
  | cons r t ih =>
      obtain ⟨h1, h2, h3, h4⟩ := ih (foldRecord agg r)
      refine ⟨?_, ?_, ?_, ?_⟩
      · rw [List.foldl_cons, h1]
        simp [foldRecord]
        ring
      · rw [List.foldl_cons, h2]
        simp [foldRecord]
        ring
      · rw [List.foldl_cons, h3]
        simp [foldRecord]
        omega
      · rw [List.foldl_cons, h4]
        simp [foldRecord]

theorem aggregateItems_from_single (n : Str) (t : List ItemPriceHistory)
    (agg : ItemAgg) (hall : ∀ r ∈ t, r.item_name = n) :
    t.foldl (fun m r => updateAssoc r.item_name r m) [(n, agg)]
      = [(n, t.foldl foldRecord agg)] := by
  induction t generalizing agg with
  | nil => rfl
  | cons r t ih =>
      have hr : r.item_name = n := hall r (List.mem_cons_self r t)
      simp only [List.foldl_cons, updateAssoc, hr, if_pos]
      exact ih (foldRecord agg r) fun x hx => hall x (List.mem_cons_of_mem r hx)

theorem aggregateItems_single_key (n : Str) (history : List ItemPriceHistory)
    (hne : history ≠ []) (hall : ∀ r ∈ history, r.item_name = n) :
    ∃ agg, aggregateItems history = [(n, agg)]
      ∧ agg.total_value = (history.map fun r => r.unit_price * r.quantity).sum
      ∧ agg.quantity = (history.map (·.quantity)).sum
      ∧ agg.frequency = history.length
      ∧ agg.prices = history.map (·.unit_price) := by
  match history with
  | [] => exact absurd rfl hne
  | r :: t =>
      have hr : r.item_name = n := hall r (List.mem_cons_self r t)
      refine ⟨t.foldl foldRecord (foldRecord {} r), ?_, ?_, ?_, ?_, ?_⟩
      · show (r :: t).foldl (fun m r => updateAssoc r.item_name r m) []
          = [(n, t.foldl foldRecord (foldRecord {} r))]
        rw [List.foldl_cons]
        have : updateAssoc r.item_name r [] = [(n, foldRecord {} r)] := by
          simp [updateAssoc, hr]
        rw [this]
        exact aggregateItems_from_single n t (foldRecord {} r)
          fun x hx => hall x (List.mem_cons_of_mem r hx)
      all_goals
        obtain ⟨h1, h2, h3, h4⟩ := foldl_foldRecord_fields t (foldRecord {} r)
      · rw [h1]
        simp [foldRecord]
        try ring
      · rw [h2]
        simp [foldRecord]
        try ring
      · rw [h3]
        simp [foldRecord]
        try omega
      · rw [h4]
        simp [foldRecord]

/-- The trend as the spec's words state it (§4.4 step 4): for ≥ 4 data
points, the percentage change from the mean of the first half (length
`⌊n/2⌋`, split by index) to the mean of the second half; fewer than 4
points report 0.  Stated for comparison with the source's `trendOf`. -/
def specTrend (prices : List ℚ) : ℚ :=
  if prices.length ≥ 4 then
    let h := prices.length / 2
    let firstMean := (prices.take h).sum / (h : ℚ)
    let secondMean := (prices.drop h).sum / ((prices.length - h : ℕ) : ℚ)
    (secondMean - firstMean) / firstMean * 100
  else 0

/-- **C4** — For non-negative price lists (the data invariant), the
source's trend computation agrees with the spec's description: the
first-half/second-half percentage change for ≥ 4 entries, 0 otherwise.
The source's extra `first_half > 0` guard changes nothing: a
non-negative first-half mean that is not positive is 0, where the
percentage-change expression is itself 0. -/
theorem C4_trend_matches_spec (prices : List ℚ)
    (hpos : ∀ p ∈ prices, 0 ≤ p) : trendOf prices = specTrend prices := by
  simp only [trendOf, specTrend]
  split_ifs with hlen hfm
  · rfl
  · have hge : 0 ≤ (prices.take (prices.length / 2)).sum :=
      List.sum_nonneg fun p hp => hpos p (List.take_subset _ _ hp)
    have hfm0 : (prices.take (prices.length / 2)).sum
        / ((prices.length / 2 : ℕ) : ℚ) = 0 :=
      le_antisymm (not_lt.mp hfm) (div_nonneg hge (by positivity))
    rw [hfm0, sub_zero, div_zero, zero_mul]
  · rfl

/-- Witness for C4: four prices `[1, 1, 2, 2]` — both computations
give the 100 % first-half-to-second-half change. -/
theorem C4_witness :
    trendOf [1, 1, 2, 2] = specTrend [1, 1, 2, 2]
    ∧ trendOf [1, 1, 2, 2] = 100 := by
  constructor
  · exact C4_trend_matches_spec [1, 1, 2, 2] (by
      intro p hp
      simp only [List.mem_cons, List.not_mem_nil, or_false] at hp
      rcases hp with rfl | rfl | rfl | rfl <;> norm_num)
  · norm_num [trendOf]

/-- **C5, counterexample** — The claim asserts the reported
`totals.total_value` is the *exact* sum `Σ price·qty` with no rounding
or loss; but the endpoint rounds to 2 decimals (server.py lines 3233
and 3261): a single occurrence at unit price 0.004 × qty 1 reports
0.00 ≠ 0.004. -/
theorem C5_counterexample :
    (get_item_statistics [⟨1, [115], [111], 1/250, 1, [], [48], 0⟩] 10).total_value
      = 0
    ∧ ([(⟨1, [115], [111], 1/250, 1, [], [48], 0⟩ : ItemPriceHistory)].map
        (fun r => r.unit_price * r.quantity)).sum ≠ 0 := by
  constructor
  · obtain ⟨agg, hagg, hv, _, _, _⟩ := aggregateItems_single_key [111]
      [⟨1, [115], [111], 1/250, 1, [], [48], 0⟩] (by simp)
      (by
        intro r hr
        rw [List.mem_singleton] at hr
        subst hr
        rfl)
    unfold get_item_statistics
    rw [if_neg (by simp)]
    simp only [hagg, List.map_cons, List.map_nil, List.sum_cons, List.sum_nil,
      add_zero]
    rw [show (mkItemStatRow [111] agg).total_value = round2 agg.total_value
      from rfl, hv, round2_idem]
    norm_num [round2, roundTo, roundHalfEven]
  · norm_num

/-- **C5, amended** — For every non-empty history sharing one
normalized name and no merge mapping, the *accumulated* bucket value
is the exact sum `Σ price·qty` (no loss during aggregation), and the
reported `totals.total_value` is that exact sum rounded once to 2
decimals. -/
theorem C5_total_value_exact_sum_rounded (n : Str)
    (history : List ItemPriceHistory) (top_n : Nat)
    (hne : history ≠ []) (hall : ∀ r ∈ history, r.item_name = n) :
    ∃ agg, aggregateItems history = [(n, agg)]
      ∧ agg.total_value = (history.map fun r => r.unit_price * r.quantity).sum
      ∧ (get_item_statistics history top_n).total_value
        = round2 ((history.map fun r => r.unit_price * r.quantity).sum) := by
  obtain ⟨agg, hagg, hv, _, _, _⟩ := aggregateItems_single_key n history hne hall
  refine ⟨agg, hagg, hv, ?_⟩
  unfold get_item_statistics
  rw [if_neg hne]
  simp only [hagg, List.map_cons, List.map_nil, List.sum_cons, List.sum_nil,
    add_zero]
  rw [show (mkItemStatRow n agg).total_value = round2 agg.total_value from rfl,
    hv, round2_idem]

/-- Witness for the amended C5: one occurrence at price 2 × qty 3
reports a total value of 6. -/
theorem C5_witness :
    (get_item_statistics [⟨1, [115], [111], 2, 3, [], [48], 0⟩] 10).total_value
      = 6 := by
  obtain ⟨agg, _, _, h3⟩ := C5_total_value_exact_sum_rounded [111]
    [⟨1, [115], [111], 2, 3, [], [48], 0⟩] 10 (by simp)
    (by
      intro r hr
      rw [List.mem_singleton] at hr
      subst hr
      rfl)
  rw [h3]
  norm_num [round2, roundTo, roundHalfEven]

/-! ## Merged-aggregation lemmas -/

/-- Bucket lookup in the merged accumulator map. -/
def bucketOf (m : List (Str × MergedAgg)) (k : Str) : Option MergedAgg :=
  (m.find? (fun p => p.1 = k)).map (·.2)

/-- Accumulated quantity of a bucket (0 when the bucket is absent). -/
def bucketQty (m : List (Str × MergedAgg)) (k : Str) : ℚ :=
  ((bucketOf m k).map (·.quantity)).getD 0

/-- Accumulated monetary value of a bucket (0 when absent). -/
def bucketVal (m : List (Str × MergedAgg)) (k : Str) : ℚ :=
  ((bucketOf m k).map (·.total_value)).getD 0

theorem bucketOf_nil (k : Str) : bucketOf [] k = none := rfl

theorem bucketOf_cons (k' : Str) (a : MergedAgg)
    (rest : List (Str × MergedAgg)) (k : Str) :
    bucketOf ((k', a) :: rest) k = if k = k' then some a else bucketOf rest k := by
  by_cases hk : k = k'
  · subst hk
    rw [bucketOf, List.find?_cons_of_pos _ (by simp), if_pos rfl]
    rfl
  · rw [bucketOf, List.find?_cons_of_neg _ (by simpa using Ne.symm hk),
      if_neg hk]
    rfl

theorem bucketOf_update (key disp : Str) (r : ItemPriceHistory)
    (m : List (Str × MergedAgg)) (k : Str) :
    bucketOf (updateMergedAssoc key disp r m) k
      = if k = key then
          some (foldMergedRecord disp ((bucketOf m key).getD {}) r)
        else bucketOf m k := by
  induction m with
  | nil =>
      show bucketOf [(key, foldMergedRecord disp {} r)] k = _
      rw [bucketOf_cons, bucketOf_nil]
      by_cases hk : k = key <;> simp [hk, bucketOf_nil]
  | cons p rest ih =>
      obtain ⟨k', a⟩ := p
      by_cases h1 : k' = key
      · subst h1
        have hupd : updateMergedAssoc k' disp r ((k', a) :: rest)
            = (k', foldMergedRecord disp a r) :: rest := by
          simp [updateMergedAssoc]
        rw [hupd]
        simp only [bucketOf_cons]
        split_ifs <;> simp_all
      · have hupd : updateMergedAssoc key disp r ((k', a) :: rest)
            = (k', a) :: updateMergedAssoc key disp r rest := by
          simp [updateMergedAssoc, h1]
        rw [hupd]
        simp only [bucketOf_cons, ih]
        split_ifs <;> simp_all

theorem bucketQty_update (key disp : Str) (r : ItemPriceHistory)
    (m : List (Str × MergedAgg)) (k : Str) :
    bucketQty (updateMergedAssoc key disp r m) k
      = if k = key then bucketQty m k + r.quantity else bucketQty m k := by
  unfold bucketQty
  rw [bucketOf_update]
  by_cases hk : k = key
  · subst hk
    cases hb : bucketOf m k <;>
      simp [hb, foldMergedRecord]
  · rw [if_neg hk, if_neg hk]

theorem bucketVal_update (key disp : Str) (r : ItemPriceHistory)
    (m : List (Str × MergedAgg)) (k : Str) :
    bucketVal (updateMergedAssoc key disp r m) k
      = if k = key then bucketVal m k + r.unit_price * r.quantity
        else bucketVal m k := by
  unfold bucketVal
  rw [bucketOf_update]
  by_cases hk : k = key
  · subst hk
    cases hb : bucketOf m k <;>
      simp [hb, foldMergedRecord]
  · rw [if_neg hk, if_neg hk]

theorem updateMergedAssoc_keys (key disp : Str) (r : ItemPriceHistory)
    (m : List (Str × MergedAgg)) :
    (updateMergedAssoc key disp r m).map Prod.fst
      = if key ∈ m.map Prod.fst then m.map Prod.fst
        else m.map Prod.fst ++ [key] := by
  induction m with
  | nil => simp [updateMergedAssoc]
  | cons p rest ih =>
      obtain ⟨k', a⟩ := p
      by_cases h1 : k' = key
      · subst h1
        have hupd : updateMergedAssoc k' disp r ((k', a) :: rest)
            = (k', foldMergedRecord disp a r) :: rest := by
          simp [updateMergedAssoc]
        rw [hupd]
        simp
      · have hupd : updateMergedAssoc key disp r ((k', a) :: rest)
            = (k', a) :: updateMergedAssoc key disp r rest := by
          simp [updateMergedAssoc, h1]
        rw [hupd]
        have h2 : ¬key = k' := fun h => h1 h.symm
        by_cases hm : key ∈ rest.map Prod.fst <;> simp [ih, hm, h2]

theorem mergedFold_props (vc cd : List (Str × Str)) :
    ∀ (history : List ItemPriceHistory) (acc : List (Str × MergedAgg) × Nat),
    ((history.foldl (mergedStep vc cd) acc).2
        = acc.2 + (history.filter fun r =>
            (resolveName vc cd r.item_name).2.2).length)
    ∧ (∀ k, bucketQty (history.foldl (mergedStep vc cd) acc).1 k
        = bucketQty acc.1 k
          + ((history.filter fun r => (resolveName vc cd r.item_name).1 = k).map
              (·.quantity)).sum)
    ∧ (∀ k, bucketVal (history.foldl (mergedStep vc cd) acc).1 k
        = bucketVal acc.1 k
          + ((history.filter fun r => (resolveName vc cd r.item_name).1 = k).map
              fun r => r.unit_price * r.quantity).sum)
    ∧ (∀ k, k ∈ ((history.foldl (mergedStep vc cd) acc).1.map Prod.fst)
        ↔ k ∈ acc.1.map Prod.fst
          ∨ ∃ r ∈ history, (resolveName vc cd r.item_name).1 = k)
    ∧ ((acc.1.map Prod.fst).Nodup →
        ((history.foldl (mergedStep vc cd) acc).1.map Prod.fst).Nodup) := by
  intro history
  induction history with
  | nil =>
      intro acc
      simp
  | cons r t ih =>
      intro acc
      obtain ⟨ihc, ihq, ihv, ihm, ihn⟩ := ih (mergedStep vc cd acc r)
      have hstep1 : (mergedStep vc cd acc r).1
          = updateMergedAssoc (resolveName vc cd r.item_name).1
              (resolveName vc cd r.item_name).2.1 r acc.1 := rfl
      have hstep2 : (mergedStep vc cd acc r).2
          = if (resolveName vc cd r.item_name).2.2 then acc.2 + 1
            else acc.2 := rfl
      refine ⟨?_, ?_, ?_, ?_, ?_⟩
      · rw [List.foldl_cons, ihc, hstep2]
        by_cases hm : (resolveName vc cd r.item_name).2.2 <;>
          · simp [List.filter_cons, hm]
            try omega
      · intro k
        rw [List.foldl_cons, ihq k, hstep1, bucketQty_update]
        by_cases hk : (resolveName vc cd r.item_name).1 = k
        · rw [if_pos hk.symm]
          simp [List.filter_cons, hk]
          ring
        · rw [if_neg fun h => hk h.symm]
          simp [List.filter_cons, hk]
      · intro k
        rw [List.foldl_cons, ihv k, hstep1, bucketVal_update]
        by_cases hk : (resolveName vc cd r.item_name).1 = k
        · rw [if_pos hk.symm]
          simp [List.filter_cons, hk]
          ring
        · rw [if_neg fun h => hk h.symm]
          simp [List.filter_cons, hk]
      · intro k
        rw [List.foldl_cons, ihm k, hstep1, updateMergedAssoc_keys]
        by_cases hin : (resolveName vc cd r.item_name).1 ∈ acc.1.map Prod.fst
        · rw [if_pos hin]
          constructor
          · rintro (h | ⟨r', hr', hk⟩)
            · exact Or.inl h
            · exact Or.inr ⟨r', List.mem_cons_of_mem r hr', hk⟩
          · rintro (h | ⟨r', hr', hk⟩)
            · exact Or.inl h
            · rcases List.mem_cons.mp hr' with rfl | hr'
              · exact Or.inl (hk ▸ hin)
              · exact Or.inr ⟨r', hr', hk⟩
        · rw [if_neg hin]
          constructor
          · rintro (h | ⟨r', hr', hk⟩)
            · rcases List.mem_append.mp h with h | h
              · exact Or.inl h
              · exact Or.inr ⟨r, List.mem_cons_self r t,
                  (List.mem_singleton.mp h).symm⟩
            · exact Or.inr ⟨r', List.mem_cons_of_mem r hr', hk⟩
          · rintro (h | ⟨r', hr', hk⟩)
            · exact Or.inl (List.mem_append.mpr (Or.inl h))
            · rcases List.mem_cons.mp hr' with rfl | hr'
              · exact Or.inl (List.mem_append.mpr
                  (Or.inr (List.mem_singleton.mpr hk.symm)))
              · exact Or.inr ⟨r', hr', hk⟩
      · intro hnd
        rw [List.foldl_cons]
        apply ihn
        rw [hstep1, updateMergedAssoc_keys]
        by_cases hin : (resolveName vc cd r.item_name).1 ∈ acc.1.map Prod.fst
        · rw [if_pos hin]
          exact hnd
        · rw [if_neg hin]
          simp [List.nodup_append, hnd, hin]

theorem dictGet_dictSet (d : List (Str × Str)) (k v k' : Str) :
    dictGet (dictSet d k v) k' = if k' = k then some v else dictGet d k' := by
  induction d with
  | nil =>
      show dictGet [(k, v)] k' = _
      by_cases hk : k' = k
      · subst hk
        simp [dictGet]
      · have h2 : ¬k = k' := fun h => hk h.symm
        simp [dictGet, hk, h2]
  | cons p rest ih =>
      obtain ⟨k0, v0⟩ := p
      by_cases h0 : k0 = k
      · subst h0
        have hset : dictSet ((k0, v0) :: rest) k0 v = (k0, v) :: rest := by
          simp [dictSet]
        rw [hset]
        by_cases hk : k' = k0
        · subst hk
          simp [dictGet]
        · have h2 : ¬k0 = k' := fun h => hk h.symm
          simp [dictGet, hk, h2]
      · have hset : dictSet ((k0, v0) :: rest) k v
            = (k0, v0) :: dictSet rest k v := by
          simp [dictSet, h0]
        rw [hset]
        by_cases hk : k' = k0
        · have h2 : ¬k' = k := fun h => h0 (hk.symm.trans h)
          have h3 : k0 = k' := hk.symm
          simp [dictGet, h2, h3]
        · have h2 : ¬k0 = k' := fun h => hk h.symm
          simp [dictGet, h2, ih]

theorem dictGet_foldl_dictSet_const (C : Str) (vs : List Str) (d : List (Str × Str))
    (k : Str) :
    dictGet (vs.foldl (fun acc v => dictSet acc (strLower v) C) d) k
      = if k ∈ vs.map strLower then some C else dictGet d k := by
  induction vs generalizing d with
  | nil => simp
  | cons v vs ih =>
      rw [List.foldl_cons, ih]
      by_cases hk : k ∈ vs.map strLower
      · simp [hk]
      · rw [if_neg hk, dictGet_dictSet]
        by_cases hv : k = strLower v <;> simp [hv, hk]

theorem buildVariantIndex_single (cid : Nat) (C dC : Str) (vs : List Str) :
    buildVariantIndex [⟨cid, C, dC, vs⟩]
      = (vs.foldl (fun acc v => dictSet acc (strLower v) C) [], [(C, dC)]) :=
  rfl

theorem resolveName_single_variant (cid : Nat) (C dC x : Str) (vs : List Str)
    (hx : strLower x ∈ vs.map strLower) :
    resolveName (buildVariantIndex [⟨cid, C, dC, vs⟩]).1
      (buildVariantIndex [⟨cid, C, dC, vs⟩]).2 x = (C, dC, true) := by
  unfold resolveName
  rw [buildVariantIndex_single]
  simp only
  rw [dictGet_foldl_dictSet_const, if_pos hx]
  simp [dictGet]

theorem assoc_eq_single_of_keys (m : List (Str × MergedAgg)) (C : Str)
    (h : m.map Prod.fst = [C]) : ∃ agg, m = [(C, agg)] := by
  match m with
  | [] => simp at h
  | (k, a) :: rest =>
      simp only [List.map_cons, List.cons.injEq] at h
      obtain ⟨h1, h2⟩ := h
      exact ⟨a, by rw [h1, List.map_eq_nil_iff.mp h2]⟩

theorem eq_single_of_nodup_mem (l : List Str) (C : Str) (hnd : l.Nodup)
    (hmem : ∀ x, x ∈ l ↔ x = C) : l = [C] := by
  match l with
  | [] => exact absurd ((hmem C).mpr rfl) (List.not_mem_nil C)
  | [x] => rw [(hmem x).mp (List.mem_singleton.mpr rfl)]
  | x :: y :: t =>
      have hx := (hmem x).mp (List.mem_cons_self x (y :: t))
      have hy := (hmem y).mp (List.mem_cons_of_mem x (List.mem_cons_self y t))
      rw [List.nodup_cons] at hnd
      exact absurd (by rw [hx, ← hy]; exact List.mem_cons_self y t) hnd.1

theorem length_two_of_nodup_mem (l : List Str) (A B : Str) (hAB : A ≠ B)
    (hnd : l.Nodup) (hmem : ∀ x, x ∈ l ↔ x = A ∨ x = B) : l.length = 2 := by
  have hfin : l.toFinset = {A, B} := by
    ext x
    simp [List.mem_toFinset, hmem x]
  have hcard := List.toFinset_card_of_nodup hnd
  rw [hfin] at hcard
  exact hcard.symm.trans (Finset.card_pair hAB)

theorem aggregateMerged_eq_foldl (vc cd : List (Str × Str))
    (history : List ItemPriceHistory) :
    history.foldl (mergedStep vc cd) ([], 0) = aggregateMerged vc cd history :=
  rfl

/-- **C2** — With a stored `MergeMapping` `{A, B} → C` (display name
`dC`), aggregating a dataset whose occurrences are all named `A` or
`B` yields exactly one bucket, keyed by the canonical name `C`, whose
accumulated quantity and value are the exact sums over all the
occurrences, and the endpoint reports `merge_applied = true`, one
unique item, and every record counted as merged. -/
theorem C2_merged_single_bucket (cid : Nat) (C dC A B : Str)
    (history : List ItemPriceHistory) (top_n : Nat)
    (hne : history ≠ [])
    (hall : ∀ r ∈ history, r.item_name = A ∨ r.item_name = B) :
    ∃ agg,
      (aggregateMerged (buildVariantIndex [⟨cid, C, dC, [A, B]⟩]).1
        (buildVariantIndex [⟨cid, C, dC, [A, B]⟩]).2 history).1 = [(C, agg)]
      ∧ agg.quantity = (history.map (·.quantity)).sum
      ∧ agg.total_value = (history.map fun r => r.unit_price * r.quantity).sum
      ∧ (get_merged_item_statistics [⟨cid, C, dC, [A, B]⟩] history top_n).merge_applied
          = true
      ∧ (get_merged_item_statistics [⟨cid, C, dC, [A, B]⟩] history top_n).unique_items
          = 1
      ∧ (get_merged_item_statistics [⟨cid, C, dC, [A, B]⟩] history top_n).merged_items
          = history.length := by
  have hres : ∀ r ∈ history,
      resolveName (buildVariantIndex [⟨cid, C, dC, [A, B]⟩]).1
        (buildVariantIndex [⟨cid, C, dC, [A, B]⟩]).2 r.item_name
        = (C, dC, true) := by
    intro r hr
    apply resolveName_single_variant
    rcases hall r hr with h | h <;> rw [h]
    · exact List.mem_map_of_mem _ (by simp)
    · exact List.mem_map_of_mem _ (by simp)
  obtain ⟨hcnt, hq, hv, hmem, hnd⟩ :=
    mergedFold_props (buildVariantIndex [⟨cid, C, dC, [A, B]⟩]).1
      (buildVariantIndex [⟨cid, C, dC, [A, B]⟩]).2 history ([], 0)
  rw [aggregateMerged_eq_foldl] at hcnt hq hv hmem hnd
  have hkeys : (aggregateMerged (buildVariantIndex [⟨cid, C, dC, [A, B]⟩]).1
      (buildVariantIndex [⟨cid, C, dC, [A, B]⟩]).2 history).1.map Prod.fst
      = [C] := by
    apply eq_single_of_nodup_mem _ _ (hnd (by simp))
    intro x
    rw [hmem x]
    constructor
    · rintro (h | ⟨r, hr, hk⟩)
      · simp at h
      · rw [← hk, hres r hr]
    · rintro rfl
      obtain ⟨r, hr⟩ := List.exists_mem_of_ne_nil history hne
      exact Or.inr ⟨r, hr, by rw [hres r hr]⟩
  obtain ⟨agg, hagg⟩ := assoc_eq_single_of_keys _ _ hkeys
  have hfilter_all : history.filter (fun r =>
      (resolveName (buildVariantIndex [⟨cid, C, dC, [A, B]⟩]).1
        (buildVariantIndex [⟨cid, C, dC, [A, B]⟩]).2 r.item_name).1 = C)
      = history :=
    List.filter_eq_self.mpr fun r hr => by
      rw [hres r hr]
      simp
  have hqty : agg.quantity = (history.map (·.quantity)).sum := by
    have h := hq C
    rw [hagg, hfilter_all] at h
    simpa [bucketQty, bucketOf_cons, bucketOf_nil] using h
  have hval : agg.total_value
      = (history.map fun r => r.unit_price * r.quantity).sum := by
    have h := hv C
    rw [hagg, hfilter_all] at h
    simpa [bucketVal, bucketOf_cons, bucketOf_nil] using h
  have hcount : (aggregateMerged (buildVariantIndex [⟨cid, C, dC, [A, B]⟩]).1
      (buildVariantIndex [⟨cid, C, dC, [A, B]⟩]).2 history).2
      = history.length := by
    rw [List.filter_eq_self.mpr (fun r hr => by rw [hres r hr])] at hcnt
    simpa using hcnt
  refine ⟨agg, hagg, hqty, hval, ?_, ?_, ?_⟩
  · simp [get_merged_item_statistics, hne]
  · simp only [get_merged_item_statistics, if_neg hne]
    rw [hagg]
    rfl
  · simp only [get_merged_item_statistics, if_neg hne]
    exact hcount

/-- Witness for C2: occurrences named `"a"` and `"b"` under a mapping
`{a, b} → "c"` fold into the single bucket `"c"` with the exact sums
2·1 + 3·2 = 8 of value and 3 of quantity. -/
theorem C2_witness :
    ∃ agg,
      (aggregateMerged (buildVariantIndex [⟨1, [99], [67], [[97], [98]]⟩]).1
        (buildVariantIndex [⟨1, [99], [67], [[97], [98]]⟩]).2
        [⟨1, [115], [97], 2, 1, [], [48], 0⟩,
         ⟨1, [115], [98], 3, 2, [], [48], 0⟩]).1 = [([99], agg)]
      ∧ agg.quantity = ([(⟨1, [115], [97], 2, 1, [], [48], 0⟩ : ItemPriceHistory),
          ⟨1, [115], [98], 3, 2, [], [48], 0⟩].map (·.quantity)).sum
      ∧ agg.total_value = ([(⟨1, [115], [97], 2, 1, [], [48], 0⟩ : ItemPriceHistory),
          ⟨1, [115], [98], 3, 2, [], [48], 0⟩].map
            fun r => r.unit_price * r.quantity).sum
      ∧ (get_merged_item_statistics [⟨1, [99], [67], [[97], [98]]⟩]
          [⟨1, [115], [97], 2, 1, [], [48], 0⟩,
           ⟨1, [115], [98], 3, 2, [], [48], 0⟩] 10).merge_applied = true
      ∧ (get_merged_item_statistics [⟨1, [99], [67], [[97], [98]]⟩]
          [⟨1, [115], [97], 2, 1, [], [48], 0⟩,
           ⟨1, [115], [98], 3, 2, [], [48], 0⟩] 10).unique_items = 1
      ∧ (get_merged_item_statistics [⟨1, [99], [67], [[97], [98]]⟩]
          [⟨1, [115], [97], 2, 1, [], [48], 0⟩,
           ⟨1, [115], [98], 3, 2, [], [48], 0⟩] 10).merged_items = 2 :=
  C2_merged_single_bucket 1 [99] [67] [97] [98]
    [⟨1, [115], [97], 2, 1, [], [48], 0⟩,
     ⟨1, [115], [98], 3, 2, [], [48], 0⟩] 10 (by simp)
    (by
      intro r hr
      rcases List.mem_cons.mp hr with rfl | hr
      · exact Or.inl rfl
      · rcases List.mem_cons.mp hr with rfl | hr
        · exact Or.inr rfl
        · exact absurd hr (List.not_mem_nil r))

theorem resolveName_nil (x : Str) : resolveName [] [] x = (strLower x, x, false) :=
  rfl

/-- **C3** — Round trip: upserting `{A, B} → C` into an empty mapping
store and then deleting `C` returns the store to empty
(`Except.ok []`), so re-aggregating is literally aggregating with no
mapping at all; and with no mapping the two buckets `A` and `B`
reappear separately, each carrying the sums over its own records. -/
theorem C3_delete_round_trip (cid : Nat) (C A B : Str)
    (history : List ItemPriceHistory) (top_n : Nat)
    (hA : strLower A = A) (hB : strLower B = B) (hAB : A ≠ B)
    (hall : ∀ r ∈ history, r.item_name = A ∨ r.item_name = B)
    (hhA : ∃ r ∈ history, r.item_name = A)
    (hhB : ∃ r ∈ history, r.item_name = B) :
    delete_merge_mapping (upsert_merge_mapping [] cid C [A, B]) cid C
      = Except.ok []
    ∧ (∀ ms, delete_merge_mapping (upsert_merge_mapping [] cid C [A, B]) cid C
        = Except.ok ms →
        get_merged_item_statistics ms history top_n
          = get_merged_item_statistics [] history top_n)
    ∧ (aggregateMerged [] [] history).1.length = 2
    ∧ bucketQty (aggregateMerged [] [] history).1 A
        = ((history.filter fun r => r.item_name = A).map (·.quantity)).sum
    ∧ bucketVal (aggregateMerged [] [] history).1 A
        = ((history.filter fun r => r.item_name = A).map
            fun r => r.unit_price * r.quantity).sum
    ∧ bucketQty (aggregateMerged [] [] history).1 B
        = ((history.filter fun r => r.item_name = B).map (·.quantity)).sum
    ∧ bucketVal (aggregateMerged [] [] history).1 B
        = ((history.filter fun r => r.item_name = B).map
            fun r => r.unit_price * r.quantity).sum := by
  have hdel : delete_merge_mapping (upsert_merge_mapping [] cid C [A, B]) cid C
      = Except.ok [] := by
    simp [upsert_merge_mapping, delete_merge_mapping,
      upsert_merge_mapping.replaceFirst, delete_merge_mapping.removeFirst]
  obtain ⟨hcnt, hq, hv, hmem, hnd⟩ := mergedFold_props [] [] history ([], 0)
  rw [aggregateMerged_eq_foldl] at hcnt hq hv hmem hnd
  have hkey : ∀ r ∈ history, (resolveName [] [] r.item_name).1 = A
      ∨ (resolveName [] [] r.item_name).1 = B := by
    intro r hr
    rcases hall r hr with h | h
    · exact Or.inl (by rw [resolveName_nil, h, hA])
    · exact Or.inr (by rw [resolveName_nil, h, hB])
  have hmem2 : ∀ x, x ∈ (aggregateMerged [] [] history).1.map Prod.fst
      ↔ x = A ∨ x = B := by
    intro x
    rw [hmem x]
    simp only [List.map_nil, List.not_mem_nil, false_or]
    constructor
    · rintro ⟨r, hr, hk⟩
      rcases hkey r hr with h | h
      · exact Or.inl (hk ▸ h)
      · exact Or.inr (hk ▸ h)
    · rintro (rfl | rfl)
      · obtain ⟨r, hr, hnm⟩ := hhA
        exact ⟨r, hr, by rw [resolveName_nil, hnm, hA]⟩
      · obtain ⟨r, hr, hnm⟩ := hhB
        exact ⟨r, hr, by rw [resolveName_nil, hnm, hB]⟩
  have hfA : history.filter
      (fun r => (resolveName [] [] r.item_name).1 = A)
      = history.filter (fun r => r.item_name = A) :=
    List.filter_congr fun r hr => by
      rcases hall r hr with h | h <;> simp [resolveName_nil, h, hA, hB]
  have hfB : history.filter
      (fun r => (resolveName [] [] r.item_name).1 = B)
      = history.filter (fun r => r.item_name = B) :=
    List.filter_congr fun r hr => by
      rcases hall r hr with h | h <;>
        simp [resolveName_nil, h, hA, hB, hAB, fun hh : B = A => hAB hh.symm]
  refine ⟨hdel, ?_, ?_, ?_, ?_, ?_, ?_⟩
  · intro ms h
    rw [hdel] at h
    injection h with h
    rw [← h]
  · have h2 := length_two_of_nodup_mem _ A B hAB (hnd (by simp)) hmem2
    rwa [List.length_map] at h2
  · have h := hq A
    rw [hfA] at h
    simpa [bucketQty, bucketOf_nil] using h
  · have h := hv A
    rw [hfA] at h
    simpa [bucketVal, bucketOf_nil] using h
  · have h := hq B
    rw [hfB] at h
    simpa [bucketQty, bucketOf_nil] using h
  · have h := hv B
    rw [hfB] at h
    simpa [bucketVal, bucketOf_nil] using h

/-- Witness for C3 at a concrete dataset: two records named `"a"` and
`"b"`; create-then-delete of mapping `{a, b} → "c"` yields the empty
store and two separate buckets. -/
theorem C3_witness :
    delete_merge_mapping (upsert_merge_mapping [] 1 [99] [[97], [98]]) 1 [99]
      = Except.ok []
    ∧ (aggregateMerged [] []
        [⟨1, [115], [97], 2, 1, [], [48], 0⟩,
         ⟨1, [115], [98], 3, 2, [], [48], 0⟩]).1.length = 2 := by
  have h := C3_delete_round_trip 1 [99] [97] [98]
    [⟨1, [115], [97], 2, 1, [], [48], 0⟩,
     ⟨1, [115], [98], 3, 2, [], [48], 0⟩] 10
    rfl rfl (by decide)
    (by
      intro r hr
      rcases List.mem_cons.mp hr with rfl | hr
      · exact Or.inl rfl
      · rcases List.mem_cons.mp hr with rfl | hr
        · exact Or.inr rfl
        · exact absurd hr (List.not_mem_nil r))
    ⟨⟨1, [115], [97], 2, 1, [], [48], 0⟩, by simp, rfl⟩
    ⟨⟨1, [115], [98], 3, 2, [], [48], 0⟩, by simp, rfl⟩
  exact ⟨h.1, h.2.2.1⟩

/-- **C9, counterexample** — The claim says the variant index maps
every variant key *and each mapping's canonical key itself*, so a
canonical-named occurrence is resolved through the index (counted as
merged, displayed under the mapping's display name).  In the code
(server.py lines 3524–3528) only `variant.lower()` keys are inserted:
with mapping canonical `"c"` (display `"C"`, variants `["a"]`) and one
occurrence named `"c"`, the index has no entry for `"c"`, the
occurrence is not counted as merged, and the bucket's display name is
the record's own name `"c"`, not `"C"`. -/
theorem C9_counterexample :
    dictGet (buildVariantIndex [⟨1, [99], [67], [[97]]⟩]).1 [99] = none
    ∧ (get_merged_item_statistics [⟨1, [99], [67], [[97]]⟩]
        [⟨1, [115], [99], 5, 1, [], [48], 0⟩] 10).merged_items = 0
    ∧ (aggregateMerged (buildVariantIndex [⟨1, [99], [67], [[97]]⟩]).1
        (buildVariantIndex [⟨1, [99], [67], [[97]]⟩]).2
        [⟨1, [115], [99], 5, 1, [], [48], 0⟩]).1.map
          (fun p => (p.1, p.2.display_name)) = [([99], [99])] := by
  refine ⟨rfl, ?_, rfl⟩
  simp [get_merged_item_statistics, aggregateMerged, mergedStep, resolveName,
    buildVariantIndex, dictGet, dictSet, strLower, pyLower]

/-- **C9, amended** — The variant index maps every lowered variant key
of a stored mapping to the mapping's canonical key, and the canonical
key to its display name in the display dict; the canonical key itself
is *not* inserted into the variant index (when it is not also listed
as a variant), so an occurrence whose normalized name equals the
canonical key is not resolved through the index: it lands in the same
bucket (its own lowered name *is* the canonical key) but is not
counted as merged and carries its own name as display. -/
theorem C9_variant_index (cid : Nat) (C dC : Str) (vs : List Str)
    (hC : C ∉ vs.map strLower) :
    (∀ v ∈ vs, dictGet (buildVariantIndex [⟨cid, C, dC, vs⟩]).1 (strLower v)
        = some C)
    ∧ dictGet (buildVariantIndex [⟨cid, C, dC, vs⟩]).1 C = none
    ∧ dictGet (buildVariantIndex [⟨cid, C, dC, vs⟩]).2 C = some dC
    ∧ (∀ x, strLower x = C →
        resolveName (buildVariantIndex [⟨cid, C, dC, vs⟩]).1
          (buildVariantIndex [⟨cid, C, dC, vs⟩]).2 x = (C, x, false)) := by
  have h2 : dictGet (buildVariantIndex [⟨cid, C, dC, vs⟩]).1 C = none := by
    show dictGet (vs.foldl (fun acc v => dictSet acc (strLower v) C) []) C
      = none
    rw [dictGet_foldl_dictSet_const, if_neg hC]
    rfl
  refine ⟨?_, h2, ?_, ?_⟩
  · intro v hv
    show dictGet (vs.foldl (fun acc v => dictSet acc (strLower v) C) [])
      (strLower v) = some C
    rw [dictGet_foldl_dictSet_const, if_pos (List.mem_map_of_mem _ hv)]
  · show dictGet [(C, dC)] C = some dC
    simp [dictGet]
  · intro x hx
    simp only [resolveName, hx, h2]

/-- Witness for the amended C9 at the counterexample's mapping:
variant `"a"` resolves to canonical `"c"`, the canonical key `"c"` is
absent from the index, and a `"c"`-named occurrence resolves to the
same bucket unmerged under its own name. -/
theorem C9_witness :
    dictGet (buildVariantIndex [⟨1, [99], [67], [[97]]⟩]).1 [97] = some [99]
    ∧ dictGet (buildVariantIndex [⟨1, [99], [67], [[97]]⟩]).1 [99] = none
    ∧ resolveName (buildVariantIndex [⟨1, [99], [67], [[97]]⟩]).1
        (buildVariantIndex [⟨1, [99], [67], [[97]]⟩]).2 [99]
        = ([99], [99], false) := by
  have h := C9_variant_index 1 [99] [67] [[97]] (by decide)
  refine ⟨?_, h.2.1, h.2.2.2 [99] rfl⟩
  have h1 := h.1 [97] (List.mem_singleton.mpr rfl)
  rwa [show strLower [97] = [97] from rfl] at h1
